import Mathlib

/-!
Verification development for the point/vector math layer of the repository
(headers tkoz/ff/PointData.hpp, tkoz/ff/pointMath/PointMathBasic.hpp,
tkoz/ff/pointMath/PointNormTags.hpp, tkoz/ff/fpMath/Numbers.hpp).

The C++ code is templated over a floating point type T.  We embed it
shallowly, parameterizing every operation by a structure of scalar
operations (FpOps).  A theorem quantified over all FpOps interpretations
holds for every semantics of the primitive scalar operations, in
particular for IEEE-754 arithmetic: such theorems capture the exact
computation structure of the source (which intrinsics are applied, in
which order, to which operands), which is the strongest bit-for-bit
reading available to a shallow embedding.

Three concrete interpretations are provided:
 - ExactOps: exact rational arithmetic (the idealised, rounding-free
   semantics of the code);
 - DoubleOps: rational values with every arithmetic result rounded by
   a model of IEEE-754 binary64 round-to-nearest-even (normal range);
 - FOps: a model of IEEE special values (NaN, infinities, signed zero)
   with the exact comparison/abs/sign-bit semantics of IEEE-754, used
   for the claims about NaN and sign-bit behaviour.
-/

/-- The storage component of a point: cDimsT components of type NumberT
(class PointData in PointData.hpp, field mData).  Indexing a function
from Fin N models the contiguous array of N components. -/
abbrev PointData (N : ℕ) (T : Type) := Fin N → T

/-- Errors of the point component (spec section on failure semantics):
the only runtime error is the out-of-range signal of the checked
accessor, modelling the std::out_of_range thrown by std::array::at. -/
inductive AccessError where
  | outOfRange : AccessError
deriving DecidableEq

namespace PointData

/-- Checked component access, PointData::at(std::size_t) in
PointData.hpp (lines 149-157): returns mData.at(i), which yields
component i when i < N and throws std::out_of_range otherwise.  The
receiver is const (the point is left unchanged), which the pure
embedding reflects by not returning a modified point. -/
def atChecked {N : ℕ} {T : Type} (p : PointData N T) (i : ℕ) :
    Except AccessError T :=
  if h : i < N then Except.ok (p ⟨i, h⟩) else Except.error AccessError.outOfRange

end PointData

/-- Scalar operations of the element type T.  Each field models the
corresponding C++ operation on the floating point type T exactly as the
source calls it: arithmetic operators, std::fma, std::abs, std::sqrt,
std::cbrt, std::pow, std::atan2, std::max (via operator<), std::signbit,
the literals T{0.0} / T{1.0} / T{2.0}, the constant fpMath::cNumPi and
the value casts T{P} from integral template parameters. -/
structure FpOps (T : Type) where
  add : T → T → T
  sub : T → T → T
  mul : T → T → T
  div : T → T → T
  fma : T → T → T → T
  abs : T → T
  sqrt : T → T
  cbrt : T → T
  powf : T → T → T
  atan2 : T → T → T
  max : T → T → T
  signbit : T → Bool
  zero : T
  one : T
  two : T
  pi : T
  ofNat : ℕ → T
  ofInt : ℤ → T

/-- Norm tag types of PointNormTags.hpp as one closed sum: InfNorm,
PNormCt with an integral or floating point exponent, and PNormRt with an
integral or floating point exponent.  Compile-time integral exponents
are sized values (the requires clause demands P at least 1); run-time
integral exponents may be any integer (the header leaves p below 1
unchecked).  Floating exponents are values of the element type. -/
inductive NormTag (T : Type) where
  | infNorm : NormTag T
  | pNormCtInt (p : ℕ) : NormTag T
  | pNormCtFloat (p : T) : NormTag T
  | pNormRtInt (p : ℤ) : NormTag T
  | pNormRtFloat (p : T) : NormTag T

/-- Tag for the L1 norm, using L1Norm = PNormCt<1> in PointNormTags.hpp. -/
def L1Norm (T : Type) : NormTag T := NormTag.pNormCtInt 1

/-- Tag for the L2 norm, using L2Norm = PNormCt<2> in PointNormTags.hpp. -/
def L2Norm (T : Type) : NormTag T := NormTag.pNormCtInt 2

/-- Tag for the infinity/max norm, using LInfNorm = InfNorm. -/
def LInfNorm (T : Type) : NormTag T := NormTag.infNorm

namespace PointMathBasic

variable {T : Type} {N : ℕ}

/-- PointMathBasic::addEq (PointMathBasic.hpp lines 28-34):
for i in [0, N): left[i] += right[i]. -/
def addEq (ops : FpOps T) (left right : PointData N T) : PointData N T :=
  fun i => ops.add (left i) (right i)

/-- PointMathBasic::subEq (lines 37-43): for i in [0, N): left[i] -= right[i]. -/
def subEq (ops : FpOps T) (left right : PointData N T) : PointData N T :=
  fun i => ops.sub (left i) (right i)

/-- PointMathBasic::mulEq (lines 46-51): for i in [0, N): left[i] *= right. -/
def mulEq (ops : FpOps T) (left : PointData N T) (right : T) : PointData N T :=
  fun i => ops.mul (left i) right

/-- PointMathBasic::divEq (lines 54-65): when N >= 2, precompute
T{1.0} / right and multiply (mulEq) by it; otherwise divide each
component directly. -/
def divEq (ops : FpOps T) (left : PointData N T) (right : T) : PointData N T :=
  if 2 ≤ N then mulEq ops left (ops.div ops.one right)
  else fun i => ops.div (left i) right

/-- PointMathBasic::dotProduct (lines 86-95): result starts at T{0.0}
and each iteration performs result = std::fma(left[i], right[i], result). -/
def dotProduct (ops : FpOps T) (left right : PointData N T) : T :=
  (List.finRange N).foldl (fun result i => ops.fma (left i) (right i) result) ops.zero

/-- PointMathBasic::pNormIntPowerSumCt (lines 316-342): power sum of the
p norm for a compile-time integral exponent P, with hand-written special
cases.  P = 1: result += std::abs(point[i]).  P = 2:
result = std::fma(point[i], point[i], result).  Even P: result +=
std::pow(point[i], cPT).  Odd P: result += std::pow(std::abs(point[i]), cPT),
where cPT is the value of P converted to T.  The requires clause of the
source demands an integral non-bool P with P >= 1. -/
def pNormIntPowerSumCt (ops : FpOps T) (P : ℕ) (point : PointData N T) : T :=
  if P = 1 then
    (List.finRange N).foldl (fun result i => ops.add result (ops.abs (point i))) ops.zero
  else if P = 2 then
    (List.finRange N).foldl (fun result i => ops.fma (point i) (point i) result) ops.zero
  else if P % 2 = 0 then
    (List.finRange N).foldl
      (fun result i => ops.add result (ops.powf (point i) (ops.ofNat P))) ops.zero
  else
    (List.finRange N).foldl
      (fun result i => ops.add result (ops.powf (ops.abs (point i)) (ops.ofNat P))) ops.zero

/-- PointMathBasic::pNormIntPowerSumRt (lines 348-358): generic run-time
power sum, result += std::pow(std::abs(point[i]), powerT) with powerT the
run-time integral exponent converted to T. -/
def pNormIntPowerSumRt (ops : FpOps T) (point : PointData N T) (power : ℤ) : T :=
  (List.finRange N).foldl
    (fun result i => ops.add result (ops.powf (ops.abs (point i)) (ops.ofInt power))) ops.zero

/-- PointMathBasic::pNormIntCt (lines 362-377): compile-time integral
p norm.  P = 1: the power sum itself.  P = 2: std::sqrt of the power sum.
P = 3: std::cbrt of the power sum.  Otherwise std::pow of the power sum
with exponent cInvP = T{1.0} / T{P}. -/
def pNormIntCt (ops : FpOps T) (P : ℕ) (point : PointData N T) : T :=
  if P = 1 then pNormIntPowerSumCt ops 1 point
  else if P = 2 then ops.sqrt (pNormIntPowerSumCt ops 2 point)
  else if P = 3 then ops.cbrt (pNormIntPowerSumCt ops 3 point)
  else ops.powf (pNormIntPowerSumCt ops P point) (ops.div ops.one (ops.ofNat P))

/-- PointMathBasic::pNormIntRt (lines 383-389): run-time integral p norm,
std::pow(pNormIntPowerSumRt(point, power), T{1.0} / T{power}). -/
def pNormIntRt (ops : FpOps T) (point : PointData N T) (power : ℤ) : T :=
  ops.powf (pNormIntPowerSumRt ops point power) (ops.div ops.one (ops.ofInt power))

/-- PointMathBasic::maxNorm (lines 392-400): result starts at T{0.0} and
each iteration performs result = std::max(result, std::abs(point[i])),
where std::max(a, b) is (a < b) ? b : a.  The max field of FpOps carries
that selection. -/
def maxNorm (ops : FpOps T) (point : PointData N T) : T :=
  (List.finRange N).foldl (fun result i => ops.max result (ops.abs (point i))) ops.zero

/-- PointMathBasic::pNormFloatPowerSumCt (lines 404-414): compile-time
floating exponent power sum, result += std::pow(std::abs(point[i]), cPT),
no special cases. -/
def pNormFloatPowerSumCt (ops : FpOps T) (P : T) (point : PointData N T) : T :=
  (List.finRange N).foldl
    (fun result i => ops.add result (ops.powf (ops.abs (point i)) P)) ops.zero

/-- PointMathBasic::pNormFloatPowerSumRt (lines 419-427): run-time
floating exponent power sum, identical loop body with a run-time power. -/
def pNormFloatPowerSumRt (ops : FpOps T) (point : PointData N T) (power : T) : T :=
  (List.finRange N).foldl
    (fun result i => ops.add result (ops.powf (ops.abs (point i)) power)) ops.zero

/-- PointMathBasic::pNormFloatCt (lines 432-438): std::pow of the
compile-time float power sum with exponent cInvP = T{1.0} / P. -/
def pNormFloatCt (ops : FpOps T) (P : T) (point : PointData N T) : T :=
  ops.powf (pNormFloatPowerSumCt ops P point) (ops.div ops.one P)

/-- PointMathBasic::pNormFloatRt (lines 443-448): std::pow of the
run-time float power sum with exponent T{1.0} / power. -/
def pNormFloatRt (ops : FpOps T) (point : PointData N T) (power : T) : T :=
  ops.powf (pNormFloatPowerSumRt ops point power) (ops.div ops.one power)

/-- PointMathBasic::norm (lines 230-264): front-end dispatch on the norm
tag.  InfNorm goes to maxNorm; a compile-time tag with integral exponent
goes to pNormIntCt, with floating exponent to pNormFloatCt; a run-time
tag with integral exponent goes to pNormIntRt, with floating exponent to
pNormFloatRt.  Bool exponents are rejected at compile time by the source
and are unrepresentable in NormTag. -/
def norm (ops : FpOps T) (point : PointData N T) : NormTag T → T
  | NormTag.infNorm => maxNorm ops point
  | NormTag.pNormCtInt p => pNormIntCt ops p point
  | NormTag.pNormCtFloat p => pNormFloatCt ops p point
  | NormTag.pNormRtInt p => pNormIntRt ops point p
  | NormTag.pNormRtFloat p => pNormFloatRt ops point p

/-- PointMathBasic::normPowerSum (lines 268-303): same dispatch for the
power sums.  The source forbids InfNorm through a requires clause (there
is no power sum for the max norm), so that branch is unreachable; the
total embedding returns T{0.0} there. -/
def normPowerSum (ops : FpOps T) (point : PointData N T) : NormTag T → T
  | NormTag.infNorm => ops.zero
  | NormTag.pNormCtInt p => pNormIntPowerSumCt ops p point
  | NormTag.pNormCtFloat p => pNormFloatPowerSumCt ops p point
  | NormTag.pNormRtInt p => pNormIntPowerSumRt ops point p
  | NormTag.pNormRtFloat p => pNormFloatPowerSumRt ops point p

/-- PointMathBasic::angleBetween (lines 99-130).  Dimension 1 (lines
102-107): compare std::signbit of the two single components and return
T{0.0} on agreement, fpMath::cNumPi on disagreement — no trigonometry.
Dimension at least 2: when unit vectors are not assumed, first compute
the L2 norms of both arguments (pNormIntCt with exponent 2) and scale
the by-value copy of each argument by the norm of the other (cross
scaling); then return T{2.0} * std::atan2(L2norm(a - b), L2norm(a + b)).
Dimension 0 is excluded by the requires clause of PointData (cDimsT > 0);
the embedding returns T{0.0} there. -/
def angleBetween (ops : FpOps T) (assumeUnit : Bool) :
    {N : ℕ} → PointData N T → PointData N T → T
  | 0, _, _ => ops.zero
  | 1, left, right =>
    if ops.signbit (left 0) == ops.signbit (right 0) then ops.zero else ops.pi
  | _ + 2, left, right =>
    let pair :=
      if assumeUnit then (left, right)
      else (mulEq ops left (pNormIntCt ops 2 right), mulEq ops right (pNormIntCt ops 2 left))
    ops.mul ops.two
      (ops.atan2 (pNormIntCt ops 2 (subEq ops pair.1 pair.2))
        (pNormIntCt ops 2 (addEq ops pair.1 pair.2)))

/-- PointMathBasic::projectOnto (lines 184-194): scale = dot(point, onto)
(the identifier dot resolves to the dot product of this policy,
dotProduct, the only dot product defined by the component — the spec
notes the same reading); when the caller does not assert a unit vector,
scale /= pNormIntPowerSumCt<2>(onto); then point[i] = scale * onto[i]. -/
def projectOnto (ops : FpOps T) (assumeUnit : Bool)
    (point onto : PointData N T) : PointData N T :=
  let scale0 := dotProduct ops point onto
  let scale :=
    if assumeUnit then scale0 else ops.div scale0 (pNormIntPowerSumCt ops 2 onto)
  fun i => ops.mul scale (onto i)

end PointMathBasic

/-- Exact rational value of the stored double constant
fpMath::cNumPi of Numbers.hpp (lines 39-41): 3.141592653589793 =
+0x1.921fb54442d18p+1, the IEEE-754 binary64 value closest to pi. -/
def cNumPi : ℚ := 884279719003555 / 281474976710656

/-- Interpretation of the scalar operations by exact rational
arithmetic: the idealised semantics of the source with no rounding.
The transcendental fields (sqrt, cbrt, pow, atan2) have no exact
rational meaning; every theorem below that involves them is quantified
over all interpretations, so the placeholder values chosen here are
never relied upon. -/
def ExactOps : FpOps ℚ where
  add a b := a + b
  sub a b := a - b
  mul a b := a * b
  div a b := a / b
  fma a b c := a * b + c
  abs a := |a|
  sqrt a := a
  cbrt a := a
  powf a _ := a
  atan2 y _ := y
  max a b := if a < b then b else a
  signbit a := decide (a < 0)
  zero := 0
  one := 1
  two := 2
  pi := cNumPi
  ofNat n := (n : ℚ)
  ofInt n := (n : ℚ)

/-- Round-to-nearest-even at scale 2^e: the argument is scaled by
2^(-e), rounded to the nearest integer (ties to even), and scaled back. -/
def roundAt (e : ℤ) (a : ℚ) : ℚ :=
  let m : ℚ := a * (2 : ℚ) ^ (-e)
  let n : ℤ := ⌊m⌋
  let r : ℚ := m - (n : ℚ)
  (if r < 1 / 2 then (n : ℚ)
   else if 1 / 2 < r then (n : ℚ) + 1
   else if n % 2 = 0 then (n : ℚ) else (n : ℚ) + 1) * (2 : ℚ) ^ e

/-- IEEE-754 binary64 rounding of a positive rational: keep 53
significant bits, rounding to nearest with ties to even.  The unit in
the last place of a value in the binade [2^k, 2^(k+1)) is 2^(k-52). -/
def roundMag (a : ℚ) : ℚ := roundAt (Int.log 2 a - 52) a

/-- IEEE-754 binary64 round-to-nearest-even on exact rational values,
for results in the normal range: overflow to infinity and subnormal
underflow are not modelled (every value appearing in the theorems below
lies well inside the normal range, where this function agrees exactly
with IEEE-754 double rounding).  Negative values round symmetrically. -/
def roundDouble (q : ℚ) : ℚ :=
  if q = 0 then 0 else if q < 0 then -roundMag (-q) else roundMag q

/-- Interpretation of the scalar operations by IEEE-754 binary64
arithmetic modelled on exact rationals: each arithmetic result is the
exact result rounded by roundDouble (the IEEE basic operations are
correctly rounded).  std::fma rounds once after the exact multiply-add.
The transcendental fields are never exercised by the theorems stated at
this interpretation. -/
def DoubleOps : FpOps ℚ where
  add a b := roundDouble (a + b)
  sub a b := roundDouble (a - b)
  mul a b := roundDouble (a * b)
  div a b := roundDouble (a / b)
  fma a b c := roundDouble (a * b + c)
  abs a := |a|
  sqrt a := a
  cbrt a := a
  powf a _ := a
  atan2 y _ := y
  max a b := if a < b then b else a
  signbit a := decide (a < 0)
  zero := 0
  one := 1
  two := 2
  pi := cNumPi
  ofNat n := (n : ℚ)
  ofInt n := (n : ℚ)

/-- IEEE-754 double values with the special values relevant to the
sign-bit and NaN claims: NaN, both infinities, the negative zero, and
finite values given exactly by a rational (val 0 is the positive zero).
Finite magnitudes are not range-limited; only comparison, absolute
value and sign-bit semantics matter for the claims stated on this type,
and those are modelled exactly after IEEE-754. -/
inductive Fp where
  | nan : Fp
  | pinf : Fp
  | ninf : Fp
  | negZero : Fp
  | val : ℚ → Fp
deriving DecidableEq

namespace Fp

/-- IEEE-754 operator< on doubles: any comparison with NaN is false;
the zeros compare equal regardless of sign; infinities are the
extremes. -/
def ltF : Fp → Fp → Bool
  | nan, _ => false
  | _, nan => false
  | ninf, ninf => false
  | ninf, _ => true
  | _, ninf => false
  | pinf, _ => false
  | negZero, pinf => true
  | val _, pinf => true
  | negZero, negZero => false
  | negZero, val b => decide (0 < b)
  | val a, negZero => decide (a < 0)
  | val a, val b => decide (a < b)

/-- std::abs on doubles clears the sign bit: NaN stays NaN, both
infinities become the positive infinity, the negative zero becomes the
positive zero, finite values take their absolute value. -/
def absF : Fp → Fp
  | nan => nan
  | pinf => pinf
  | ninf => pinf
  | negZero => val 0
  | val a => val |a|

/-- std::signbit on doubles reads the sign bit: true for the negative
zero, the negative infinity and negative finite values.  The sign bit
of a NaN is unspecified here (no claim touches it); false is chosen. -/
def signbitF : Fp → Bool
  | nan => false
  | pinf => false
  | ninf => true
  | negZero => true
  | val a => decide (a < 0)

/-- The value is a non-NaN, non-negative double: the positive infinity
or a finite non-negative value.  The max norm lands in this set. -/
def nonnegNotNan : Fp → Prop
  | pinf => True
  | val q => 0 ≤ q
  | _ => False

end Fp

/-- Interpretation of the scalar operations on the IEEE special-value
model Fp.  The comparison-based fields follow IEEE-754 exactly:
std::max(a, b) is (a < b) ? b : a with the IEEE operator<, std::abs
clears the sign bit, std::signbit reads it.  The arithmetic and
transcendental fields are never exercised by the claims stated at this
interpretation (the max-norm path and the one-dimensional angle path
use none of them); they are filled with NaN. -/
def FOps : FpOps Fp where
  add _ _ := Fp.nan
  sub _ _ := Fp.nan
  mul _ _ := Fp.nan
  div _ _ := Fp.nan
  fma _ _ _ := Fp.nan
  abs := Fp.absF
  sqrt _ := Fp.nan
  cbrt _ := Fp.nan
  powf _ _ := Fp.nan
  atan2 _ _ := Fp.nan
  max a b := if Fp.ltF a b then b else a
  signbit := Fp.signbitF
  zero := Fp.val 0
  one := Fp.val 1
  two := Fp.val 2
  pi := Fp.val cNumPi
  ofNat n := Fp.val n
  ofInt n := Fp.val n

open PointMathBasic

/-- Folding additions of mapped elements from the right operand equals
the starting value plus the sum of the mapped list. -/
theorem list_foldl_add_right_eq {α : Type} (f : α → ℚ) :
    ∀ (l : List α) (a : ℚ), l.foldl (fun r i => r + f i) a = a + (l.map f).sum := by
  intro l
  induction l with
  | nil => simp
  | cons x xs ih => intro a; simp [ih, add_assoc]

/-- Folding additions of mapped elements from the left operand equals
the starting value plus the sum of the mapped list. -/
theorem list_foldl_add_left_eq {α : Type} (f : α → ℚ) :
    ∀ (l : List α) (a : ℚ), l.foldl (fun r i => f i + r) a = a + (l.map f).sum := by
  intro l
  induction l with
  | nil => simp
  | cons x xs ih => intro a; rw [List.foldl_cons, ih]; ring_nf; simp [add_comm, add_assoc, add_left_comm]

/-- C1: projectOnto replaces the point with onto scaled by the dot
product of point and onto; with assumeUnit false the scale factor is
first divided by the squared L2 norm of onto (its exponent-2 power sum,
which under exact arithmetic is the sum of squares of the components);
with assumeUnit true the division is skipped and every component equals
dot(point, onto) times the corresponding component of onto.  Quantified
over every interpretation of the scalar operations, hence over IEEE
arithmetic in particular. -/
theorem projectOnto_spec :
    (∀ (T : Type) (ops : FpOps T) (N : ℕ) (point onto : PointData N T),
      (∀ i, projectOnto ops true point onto i =
        ops.mul (dotProduct ops point onto) (onto i)) ∧
      (∀ i, projectOnto ops false point onto i =
        ops.mul (ops.div (dotProduct ops point onto)
          (pNormIntPowerSumCt ops 2 onto)) (onto i))) ∧
    (∀ (N : ℕ) (onto : PointData N ℚ),
      pNormIntPowerSumCt ExactOps 2 onto = ∑ i, onto i * onto i) := by
  refine ⟨fun T ops N point onto => ⟨fun i => rfl, fun i => rfl⟩, fun N onto => ?_⟩
  show (List.finRange N).foldl (fun r i => ExactOps.fma (onto i) (onto i) r) ExactOps.zero = _
  show (List.finRange N).foldl (fun r i => onto i * onto i + r) 0 = _
  rw [list_foldl_add_left_eq (fun i => onto i * onto i) (List.finRange N) 0, zero_add,
    Fin.sum_univ_def]

/-- C2: divEq multiplies every component by the single precomputed
reciprocal one/s when the dimension is at least 2, and divides the
component directly by s when the dimension is 1.  Quantified over every
interpretation of the scalar operations. -/
theorem divEq_spec :
    ∀ (T : Type) (ops : FpOps T) (N : ℕ) (left : PointData N T) (s : T),
      (2 ≤ N → ∀ i, divEq ops left s i = ops.mul (left i) (ops.div ops.one s)) ∧
      (N = 1 → ∀ i, divEq ops left s i = ops.div (left i) s) := by
  intro T ops N left s
  constructor
  · intro h i
    simp only [divEq, if_pos h]
    rfl
  · intro h i
    subst h
    simp only [divEq]
    norm_num

/-- Witness for C2 at concrete inputs: a 2-dimensional point uses the
reciprocal multiply and a 1-dimensional point uses direct division. -/
theorem divEq_spec_witness :
    divEq ExactOps (fun _ : Fin 2 => (3 : ℚ)) 2 0 =
      ExactOps.mul 3 (ExactOps.div ExactOps.one 2) ∧
    divEq ExactOps (fun _ : Fin 1 => (5 : ℚ)) 2 0 = ExactOps.div 5 2 :=
  ⟨(divEq_spec ℚ ExactOps 2 (fun _ => 3) 2).1 (by norm_num) 0,
   (divEq_spec ℚ ExactOps 1 (fun _ => 5) 2).2 rfl 0⟩

/-- C5: the norm dispatch for the compile-time integral exponent 1 (the
L1Norm tag) routes through the dedicated exponent-1 special case of
pNormIntPowerSumCt, the running sum of absolute values of the
components; the result does not depend on the pow interpretation (the
theorem is quantified over all interpretations, the generic pow path is
never consulted), and under exact arithmetic it is the sum of the
absolute values. -/
theorem norm_l1_spec :
    (∀ (T : Type) (ops : FpOps T) (N : ℕ) (p : PointData N T),
      norm ops p (L1Norm T) = pNormIntPowerSumCt ops 1 p ∧
      norm ops p (L1Norm T) =
        (List.finRange N).foldl (fun result i => ops.add result (ops.abs (p i))) ops.zero) ∧
    (∀ (N : ℕ) (p : PointData N ℚ), norm ExactOps p (L1Norm ℚ) = ∑ i, |p i|) := by
  refine ⟨fun T ops N p => ⟨rfl, rfl⟩, fun N p => ?_⟩
  show (List.finRange N).foldl (fun r i => ExactOps.add r (ExactOps.abs (p i))) ExactOps.zero = _
  show (List.finRange N).foldl (fun r i => r + |p i|) 0 = _
  rw [list_foldl_add_right_eq (fun i => |p i|) (List.finRange N) 0, zero_add, Fin.sum_univ_def]

/-- C9: the dot product of a point with itself is the very same
computation as the exponent-2 power sum reached by normPowerSum with
the L2Norm tag: both are the fold result = fma(a[i], a[i], result)
starting at zero, so the two are equal for every interpretation of the
scalar operations — bit-for-bit identical, not merely within rounding
tolerance. -/
theorem dotProduct_eq_normPowerSum_l2 :
    ∀ (T : Type) (ops : FpOps T) (N : ℕ) (a : PointData N T),
      dotProduct ops a a = normPowerSum ops a (L2Norm T) ∧
      normPowerSum ops a (L2Norm T) =
        (List.finRange N).foldl (fun result i => ops.fma (a i) (a i) result) ops.zero :=
  fun T ops N a => ⟨rfl, rfl⟩

/-- C4: in dimension 1 angleBetween compares the sign bits of the two
single components and returns the zero literal when they agree and the
stored constant cNumPi when they differ, with no trigonometric
computation; this holds for every interpretation of the scalar
operations and every component value.  On the IEEE special-value model
the signed zeros witness that the sign bit, not the value, decides:
the pair (-0.0, +0.0) has equal values yet yields pi, while
(+0.0, +0.0) yields 0, and the pi returned is the stored cNumPi. -/
theorem angleBetween_dim1_spec :
    (∀ (T : Type) (ops : FpOps T) (u : Bool) (a b : PointData 1 T),
      angleBetween ops u a b =
        if ops.signbit (a 0) == ops.signbit (b 0) then ops.zero else ops.pi) ∧
    angleBetween FOps false (fun _ : Fin 1 => Fp.negZero) (fun _ : Fin 1 => Fp.val 0) = Fp.val cNumPi ∧
    angleBetween FOps false (fun _ : Fin 1 => Fp.val 0) (fun _ : Fin 1 => Fp.val 0) = Fp.val 0 ∧
    FOps.pi = Fp.val cNumPi := by
  refine ⟨fun T ops u a b => rfl, ?_, ?_, rfl⟩
  · show (if Fp.signbitF Fp.negZero == Fp.signbitF (Fp.val 0) then FOps.zero else FOps.pi) =
      Fp.val cNumPi
    norm_num [Fp.signbitF, FOps]
  · show (if Fp.signbitF (Fp.val 0) == Fp.signbitF (Fp.val 0) then FOps.zero else FOps.pi) =
      Fp.val 0
    norm_num [Fp.signbitF, FOps]

/-- C3: in dimension at least 2, with unit vectors not assumed,
angleBetween cross-scales the copies (each argument scaled by the L2
norm of the other, both norms taken from the original arguments) and
returns two times atan2 of the L2 norm of the difference and the L2 norm
of the sum — the half-angle atan2 formula, for every interpretation of
the scalar operations (in particular it is not acos of a normalized dot
product: the result does not depend on any acos interpretation). -/
theorem angleBetween_general_spec :
    ∀ (T : Type) (ops : FpOps T) (N : ℕ), 2 ≤ N →
      ∀ (left right : PointData N T),
        angleBetween ops false left right =
          ops.mul ops.two
            (ops.atan2
              (pNormIntCt ops 2 (subEq ops
                (mulEq ops left (pNormIntCt ops 2 right))
                (mulEq ops right (pNormIntCt ops 2 left))))
              (pNormIntCt ops 2 (addEq ops
                (mulEq ops left (pNormIntCt ops 2 right))
                (mulEq ops right (pNormIntCt ops 2 left))))) := by
  intro T ops N h left right
  obtain ⟨k, rfl⟩ : ∃ k, N = k + 2 := ⟨N - 2, by omega⟩
  rfl

/-- Witness for C3 at a concrete 2-dimensional input over the exact
interpretation. -/
theorem angleBetween_general_spec_witness :
    angleBetween ExactOps false (fun _ : Fin 2 => (1 : ℚ)) (fun _ : Fin 2 => (2 : ℚ)) =
      ExactOps.mul ExactOps.two
        (ExactOps.atan2
          (pNormIntCt ExactOps 2 (subEq ExactOps
            (mulEq ExactOps (fun _ : Fin 2 => (1 : ℚ))
              (pNormIntCt ExactOps 2 (fun _ : Fin 2 => (2 : ℚ))))
            (mulEq ExactOps (fun _ : Fin 2 => (2 : ℚ))
              (pNormIntCt ExactOps 2 (fun _ : Fin 2 => (1 : ℚ))))))
          (pNormIntCt ExactOps 2 (addEq ExactOps
            (mulEq ExactOps (fun _ : Fin 2 => (1 : ℚ))
              (pNormIntCt ExactOps 2 (fun _ : Fin 2 => (2 : ℚ))))
            (mulEq ExactOps (fun _ : Fin 2 => (2 : ℚ))
              (pNormIntCt ExactOps 2 (fun _ : Fin 2 => (1 : ℚ))))))) :=
  angleBetween_general_spec ℚ ExactOps 2 (by norm_num) _ _

/-- Comparing any value against NaN with the IEEE operator< is false. -/
theorem fp_ltF_nan_right : ∀ x : Fp, Fp.ltF x Fp.nan = false := by
  intro x
  cases x <;> rfl

/-- One step of the max-norm loop preserves membership in the non-NaN
non-negative values: std::max(result, std::abs(x)) keeps the accumulator
when the comparison against a NaN operand is false, and otherwise picks
a non-negative absolute value or infinity. -/
theorem fp_max_abs_step (r x : Fp) (h : Fp.nonnegNotNan r) :
    Fp.nonnegNotNan (FOps.max r (FOps.abs x)) := by
  cases r with
  | nan => exact h.elim
  | ninf => exact h.elim
  | negZero => exact h.elim
  | pinf => cases x <;> simp [FOps, Fp.absF, Fp.ltF, Fp.nonnegNotNan]
  | val q =>
      cases x with
      | nan => simpa [FOps, Fp.absF, Fp.ltF, Fp.nonnegNotNan] using h
      | pinf => simp [FOps, Fp.absF, Fp.ltF, Fp.nonnegNotNan]
      | ninf => simp [FOps, Fp.absF, Fp.ltF, Fp.nonnegNotNan]
      | negZero =>
          have hq : ¬q < 0 := not_lt.mpr h
          simpa [FOps, Fp.absF, Fp.ltF, Fp.nonnegNotNan, hq] using h
      | val a =>
          show Fp.nonnegNotNan (if Fp.ltF (Fp.val q) (Fp.val |a|) then Fp.val |a| else Fp.val q)
          split
          · exact abs_nonneg a
          · exact h

/-- The max-norm loop over non-NaN non-negative accumulators stays in
that set, whatever the components are. -/
theorem fp_maxNorm_fold_nonneg {N : ℕ} (p : PointData N Fp) :
    ∀ (l : List (Fin N)) (acc : Fp), Fp.nonnegNotNan acc →
      Fp.nonnegNotNan (l.foldl (fun result i => FOps.max result (FOps.abs (p i))) acc) := by
  intro l
  induction l with
  | nil => intro acc h; exact h
  | cons x xs ih => intro acc h; exact ih _ (fp_max_abs_step acc (p x) h)

/-- When every component is NaN, each max-norm step leaves the
accumulator unchanged, since any comparison against NaN is false. -/
theorem fp_maxNorm_fold_nan {N : ℕ} (p : PointData N Fp) (hp : ∀ i, p i = Fp.nan) :
    ∀ (l : List (Fin N)) (acc : Fp),
      l.foldl (fun result i => FOps.max result (FOps.abs (p i))) acc = acc := by
  intro l
  induction l with
  | nil => intro acc; rfl
  | cons x xs ih =>
      intro acc
      rw [List.foldl_cons]
      have hstep : FOps.max acc (FOps.abs (p x)) = acc := by
        rw [hp x]
        show (if Fp.ltF acc Fp.nan then Fp.nan else acc) = acc
        rw [fp_ltF_nan_right]
        rfl
      rw [hstep]
      exact ih acc

/-- C10: the infinity/max norm is never NaN and never negative, for
every point of the IEEE special-value model, even when components are
NaN: the accumulator starts at zero and std::max leaves it unchanged
when compared against NaN, so NaN components are skipped; a point whose
components are all NaN yields max norm zero. -/
theorem maxNorm_infNorm_spec :
    (∀ (N : ℕ) (p : PointData N Fp), Fp.nonnegNotNan (norm FOps p NormTag.infNorm)) ∧
    (∀ (N : ℕ) (p : PointData N Fp), (∀ i, p i = Fp.nan) →
      norm FOps p NormTag.infNorm = Fp.val 0) := by
  constructor
  · intro N p
    exact fp_maxNorm_fold_nonneg p (List.finRange N) FOps.zero le_rfl
  · intro N p hp
    exact fp_maxNorm_fold_nan p hp (List.finRange N) FOps.zero

/-- Witness for C10 at a concrete all-NaN 2-dimensional point. -/
theorem maxNorm_infNorm_spec_witness :
    norm FOps (fun _ : Fin 2 => Fp.nan) NormTag.infNorm = Fp.val 0 :=
  maxNorm_infNorm_spec.2 2 (fun _ => Fp.nan) (fun _ => rfl)

/-- C8: the checked accessor fails with the out-of-range error exactly
when the index is at least the dimension, and otherwise returns
component i (the point itself is untouched: the embedding is pure and
the source method is const).  For the concrete example point
(1.01, 1.03, 1.05) of dimension 3, index 3 raises the out-of-range
error and index 2 returns 1.05; the out-of-range signal is the only
error of the component. -/
theorem atChecked_spec :
    (∀ (T : Type) (N : ℕ) (p : PointData N T) (i : ℕ),
      (PointData.atChecked p i = Except.error AccessError.outOfRange ↔ N ≤ i) ∧
      (∀ h : i < N, PointData.atChecked p i = Except.ok (p ⟨i, h⟩))) ∧
    PointData.atChecked (![101 / 100, 103 / 100, 21 / 20] : PointData 3 ℚ) 3 =
      Except.error AccessError.outOfRange ∧
    PointData.atChecked (![101 / 100, 103 / 100, 21 / 20] : PointData 3 ℚ) 2 =
      Except.ok (21 / 20) := by
  refine ⟨fun T N p i => ⟨⟨fun he => ?_, fun hge => ?_⟩, fun h => ?_⟩, ?_, ?_⟩
  · by_contra hlt
    push_neg at hlt
    rw [PointData.atChecked, dif_pos hlt] at he
    exact Except.noConfusion he
  · rw [PointData.atChecked, dif_neg (by omega)]
  · rw [PointData.atChecked, dif_pos h]
  · rfl
  · rfl

/-- Witness for C8: the bounded-index branch applied at the concrete
example point and index 2. -/
theorem atChecked_spec_witness :
    PointData.atChecked (![101 / 100, 103 / 100, 21 / 20] : PointData 3 ℚ) 2 =
      Except.ok ((![101 / 100, 103 / 100, 21 / 20] : PointData 3 ℚ) ⟨2, by norm_num⟩) :=
  (atChecked_spec.1 ℚ 3 _ 2).2 (by norm_num)

/-- The base-2 integer logarithm of a rational bracketed between two
adjacent powers of two. -/
theorem int_log2_eq_of {q : ℚ} {e : ℤ} (h1 : (2 : ℚ) ^ e ≤ q) (h2 : q < (2 : ℚ) ^ (e + 1)) :
    Int.log 2 q = e := by
  have hq : 0 < q := lt_of_lt_of_le (by positivity) h1
  have h1n : ((2 : ℕ) : ℚ) ^ e ≤ q := by exact_mod_cast h1
  have h2n : q < ((2 : ℕ) : ℚ) ^ (e + 1) := by exact_mod_cast h2
  have ha : e ≤ Int.log 2 q := (Int.zpow_le_iff_le_log (by norm_num) hq).mp h1n
  have hb : Int.log 2 q < e + 1 := (Int.lt_zpow_iff_log_lt (by norm_num) hq).mp h2n
  omega

/-- Evaluation of the binary64 rounding when the scaled mantissa lies
within less than half a unit above the integer n: the value rounds down
to n units in the last place of the binade starting at 2^e. -/
theorem roundDouble_eval_down {q : ℚ} {e n : ℤ}
    (h1 : (2 : ℚ) ^ e ≤ q) (h2 : q < (2 : ℚ) ^ (e + 1))
    (hn : (n : ℚ) ≤ q * (2 : ℚ) ^ (52 - e))
    (hr : q * (2 : ℚ) ^ (52 - e) - (n : ℚ) < 1 / 2) :
    roundDouble q = (n : ℚ) * (2 : ℚ) ^ (e - 52) := by
  have hq : 0 < q := lt_of_lt_of_le (by positivity) h1
  have hne : q ≠ 0 := ne_of_gt hq
  have hnlt : ¬q < 0 := not_lt.mpr hq.le
  have hlog : Int.log 2 q = e := int_log2_eq_of h1 h2
  rw [roundDouble, if_neg hne, if_neg hnlt, roundMag, hlog]
  have hmexp : -(e - 52) = 52 - e := by ring
  have hfloor : ⌊q * (2 : ℚ) ^ (52 - e)⌋ = n :=
    Int.floor_eq_iff.mpr ⟨hn, by linarith⟩
  simp only [roundAt, hmexp, hfloor, if_pos hr]

/-- C6 counterexample: with IEEE-754 binary64 rounding, addEq followed
by subEq with the same right operand does not restore the left operand,
already in dimension 1 with the finite, non-overflowing components
left = 2^(-60) and right = 1: the rounded sum is exactly 1 and the
rounded difference is exactly 0, not 2^(-60). -/
theorem addEq_subEq_not_exact :
    subEq DoubleOps
        (addEq DoubleOps (fun _ : Fin 1 => (1 / 1152921504606846976 : ℚ))
          (fun _ : Fin 1 => (1 : ℚ)))
        (fun _ : Fin 1 => (1 : ℚ)) 0 ≠ (1 / 1152921504606846976 : ℚ) := by
  have hadd : DoubleOps.add (1 / 1152921504606846976 : ℚ) 1 = 1 := by
    show roundDouble (1 / 1152921504606846976 + 1) = 1
    have h1 : (2 : ℚ) ^ (0 : ℤ) ≤ 1 / 1152921504606846976 + 1 := by norm_num
    have h2 : (1 / 1152921504606846976 : ℚ) + 1 < (2 : ℚ) ^ ((0 : ℤ) + 1) := by norm_num
    have hn : ((4503599627370496 : ℤ) : ℚ) ≤
        (1 / 1152921504606846976 + 1) * (2 : ℚ) ^ ((52 : ℤ) - 0) := by norm_num
    have hr : (1 / 1152921504606846976 + 1) * (2 : ℚ) ^ ((52 : ℤ) - 0) -
        ((4503599627370496 : ℤ) : ℚ) < 1 / 2 := by norm_num
    rw [roundDouble_eval_down h1 h2 hn hr]
    norm_num
  show DoubleOps.sub (DoubleOps.add (1 / 1152921504606846976 : ℚ) 1) 1 ≠
    (1 / 1152921504606846976 : ℚ)
  rw [hadd]
  have hsub : DoubleOps.sub (1 : ℚ) 1 = 0 := by
    show roundDouble (1 - 1) = 0
    norm_num [roundDouble]
  rw [hsub]
  norm_num

/-- C6 amended: when every addition and subtraction is computed exactly
(no rounding), addEq followed by subEq with the same right operand
restores the left operand bit for bit, in every dimension. -/
theorem addEq_subEq_exact_arith :
    ∀ (N : ℕ) (left right : PointData N ℚ),
      subEq ExactOps (addEq ExactOps left right) right = left := by
  intro N left right
  funext i
  show left i + right i - right i = left i
  ring

/-- Dimension 1 takes the direct-division branch of divEq. -/
theorem divEq_apply_dim1 {T : Type} (ops : FpOps T) (left : PointData 1 T) (s : T) (i : Fin 1) :
    divEq ops left s i = ops.div (left i) s := rfl

/-- Componentwise reading of mulEq. -/
theorem mulEq_apply {T : Type} {N : ℕ} (ops : FpOps T) (left : PointData N T) (s : T)
    (i : Fin N) : mulEq ops left s i = ops.mul (left i) s := rfl

/-- C7 counterexample: with IEEE-754 binary64 rounding, mulEq followed
by divEq with the same scalar does not restore a 1-dimensional point,
even though dimension 1 divides directly with no reciprocal: for
a = 2^53 - 1 = 9007199254740991 and the representable double
s = 5404319552844595 / 2^53 (the double closest to 0.6), the rounded
product is 5404319552844594 and the rounded quotient is
9007199254740990, one unit below the original a. -/
theorem mulEq_divEq_dim1_not_exact :
    divEq DoubleOps
        (mulEq DoubleOps (fun _ : Fin 1 => (9007199254740991 : ℚ))
          (5404319552844595 / 9007199254740992))
        (5404319552844595 / 9007199254740992) 0 ≠ (9007199254740991 : ℚ) := by
  have hmul : DoubleOps.mul (9007199254740991 : ℚ) (5404319552844595 / 9007199254740992) =
      5404319552844594 := by
    show roundDouble ((9007199254740991 : ℚ) * (5404319552844595 / 9007199254740992)) =
      5404319552844594
    have h1 : (2 : ℚ) ^ (52 : ℤ) ≤
        (9007199254740991 : ℚ) * (5404319552844595 / 9007199254740992) := by norm_num
    have h2 : (9007199254740991 : ℚ) * (5404319552844595 / 9007199254740992) <
        (2 : ℚ) ^ ((52 : ℤ) + 1) := by norm_num
    have hn : ((5404319552844594 : ℤ) : ℚ) ≤
        (9007199254740991 : ℚ) * (5404319552844595 / 9007199254740992) *
          (2 : ℚ) ^ ((52 : ℤ) - 52) := by norm_num
    have hr : (9007199254740991 : ℚ) * (5404319552844595 / 9007199254740992) *
        (2 : ℚ) ^ ((52 : ℤ) - 52) - ((5404319552844594 : ℤ) : ℚ) < 1 / 2 := by norm_num
    rw [roundDouble_eval_down h1 h2 hn hr]
    norm_num
  have hdiv : DoubleOps.div (5404319552844594 : ℚ) (5404319552844595 / 9007199254740992) =
      9007199254740990 := by
    show roundDouble ((5404319552844594 : ℚ) / (5404319552844595 / 9007199254740992)) =
      9007199254740990
    have h1 : (2 : ℚ) ^ (52 : ℤ) ≤
        (5404319552844594 : ℚ) / (5404319552844595 / 9007199254740992) := by norm_num
    have h2 : (5404319552844594 : ℚ) / (5404319552844595 / 9007199254740992) <
        (2 : ℚ) ^ ((52 : ℤ) + 1) := by norm_num
    have hn : ((9007199254740990 : ℤ) : ℚ) ≤
        (5404319552844594 : ℚ) / (5404319552844595 / 9007199254740992) *
          (2 : ℚ) ^ ((52 : ℤ) - 52) := by norm_num
    have hr : (5404319552844594 : ℚ) / (5404319552844595 / 9007199254740992) *
        (2 : ℚ) ^ ((52 : ℤ) - 52) - ((9007199254740990 : ℤ) : ℚ) < 1 / 2 := by norm_num
    rw [roundDouble_eval_down h1 h2 hn hr]
    norm_num
  rw [divEq_apply_dim1, mulEq_apply]
  rw [hmul, hdiv]
  norm_num

/-- C7 amended: when the multiply and the divide are computed exactly
(no rounding), mulEq followed by divEq with the same nonzero scalar
restores a 1-dimensional point exactly; dimension 1 takes the direct
division branch with no reciprocal. -/
theorem mulEq_divEq_dim1_exact_arith :
    ∀ (a : PointData 1 ℚ) (s : ℚ), s ≠ 0 →
      divEq ExactOps (mulEq ExactOps a s) s = a := by
  intro a s hs
  funext i
  show a i * s / s = a i
  exact mul_div_cancel_right₀ (a i) hs

/-- Witness for the amended C7 at a concrete nonzero scalar. -/
theorem mulEq_divEq_dim1_exact_arith_witness :
    divEq ExactOps (mulEq ExactOps (fun _ : Fin 1 => (3 : ℚ)) 2) 2 =
      fun _ : Fin 1 => (3 : ℚ) :=
  mulEq_divEq_dim1_exact_arith (fun _ => 3) 2 (by norm_num)
